import Mathlib

/-!
Verification of the bounded breadth-first wiki crawler (src/main.py).

The crawler downloads HTML pages starting from a seed wikipedia URL,
extracts anchors, keeps the site-internal ones (raw href starting with
"/wiki/"), resolves them against the seed's language host, yields the
(text, absolute-url) pairs and re-enqueues the targets into a bounded
FIFO work queue, up to an iteration limit.

The embedding below translates the relevant functions of src/main.py:
- download_html_page  (lines 51-60)
- is_internal         (lines 93-94)
- make_absolute       (lines 105-106)
- recursive_download_and_parse (lines 109-139), as a state machine:
  crawlStep is one body of the while loop, crawlLoop is the loop,
  driven by fuel that provably suffices (the loop always exits through
  its own condition, see crawlLoop_stops_by_cond).
- parse_url           (lines 142-143), the regex match expanded into an
  explicit deterministic matcher for the concrete pattern
  https?://([a-z]+)[.]wikipedia.org/  (re.match prefix semantics; the
  two unescaped dots match any character except a newline).
- main                (lines 146-166), its pure core: seed validation,
  dict() folding of the yielded pairs, JSON serialization shape.

Network and HTML parsing are external collaborators; they enter as
oracles: net maps a URL to an HTTP outcome, extract maps a page body to
the anchor (text, href) list or a parse error.
-/

namespace HseWs10

/-- Outcome of one HTTP GET: either the transport fails (carrying the
underlying diagnostics that requests would put in the exception), or the
server answers with a status code and a body. -/
inductive HttpResult where
  | transportError (diagnostics : String)
  | response (statusCode : Nat) (body : String)
deriving DecidableEq, Repr

/-- src/main.py lines 51-60: download_html_page. A transport-level
exception is replaced by the fixed generic message; any status other
than 200 raises an error naming the status; otherwise the body is
returned. -/
def download_html_page : HttpResult → Except String String
  | .transportError _ => .error "Unable to download the web page"
  | .response code body =>
      if code ≠ 200 then .error ("Server returned " ++ toString code)
      else .ok body

/-- src/main.py lines 93-94: is_internal. -/
def is_internal (url : String) : Bool := url.startsWith "/wiki/"

/-- src/main.py lines 105-106: make_absolute. -/
def make_absolute (url lang : String) : String :=
  "https://" ++ lang ++ ".wikipedia.org" ++ url

/-- queue.Queue(maxsize).full(): True iff maxsize is positive and the
queue holds at least maxsize items (a non-positive maxsize means an
unbounded queue, which is never full). -/
def queueFull (maxsize : Int) (size : Nat) : Bool :=
  decide (0 < maxsize) && decide (maxsize ≤ (size : Int))

/-- src/main.py lines 134-135: the guarded put_nowait. The item is
appended only when the queue is not full; otherwise the queue is left
unchanged (the insertion is silently dropped). -/
def enqueueBounded (maxsize : Int) (q : List String) (x : String) : List String :=
  if queueFull maxsize q.length then q else q ++ [x]

/-- The mutable state of the while loop of recursive_download_and_parse:
the FIFO work queue (head = next to dequeue), the iteration counter, the
pairs yielded so far (in order), and how many times time.sleep ran. -/
structure CrawlState where
  queue : List String
  iterations : Nat
  yields : List (String × String)
  slept : Nat
deriving DecidableEq, Repr

/-- The fetch-and-extract oracle: what download_html_page followed by
find_links produces for a URL — the anchor (text, raw href) pairs of
the page, or the error of the failed step. -/
abbrev FetchExtract := String → Except String (List (String × String))

/-- src/main.py lines 126-129 composed: download the page with
download_html_page over the network oracle, then run the extractor
(find_links) on the body; the first failure wins. -/
def fetchExtract (net : String → HttpResult)
    (extract : String → Except String (List (String × String)))
    (u : String) : Except String (List (String × String)) :=
  match download_html_page (net u) with
  | .error e => .error e
  | .ok body => extract body

/-- src/main.py lines 127-135: the internal_links generator consumed by
the for loop. Each (text, href) with is_internal href yields
(text, make_absolute href lang) and enqueues the absolute URL when the
queue is not full; other pairs are dropped. Returns the queue after the
loop together with the yielded pairs in order. -/
def processLinks (lang : String) (maxsize : Int) :
    List (String × String) → List String → List String × List (String × String)
  | [], q => (q, [])
  | (text, href) :: rest, q =>
      if is_internal href then
        let abs := make_absolute href lang
        let res := processLinks lang maxsize rest (enqueueBounded maxsize q abs)
        (res.1, (text, abs) :: res.2)
      else processLinks lang maxsize rest q

/-- One body of the while loop (src/main.py lines 122-139): dequeue,
increment the counter, then try fetch+extract. On failure nothing is
yielded, nothing enqueued, no sleep. On success the links are processed
and time.sleep(delay) runs once. -/
def crawlStep (f : FetchExtract) (lang : String) (maxsize : Int)
    (s : CrawlState) : CrawlState :=
  match s.queue with
  | [] => s
  | u :: rest =>
    match f u with
    | .error _ =>
        { queue := rest, iterations := s.iterations + 1,
          yields := s.yields, slept := s.slept }
    | .ok links =>
        let res := processLinks lang maxsize links rest
        { queue := res.1, iterations := s.iterations + 1,
          yields := s.yields ++ res.2, slept := s.slept + 1 }

/-- The while condition of src/main.py line 121:
not task_queue.empty() and iterations < iteration_limit. -/
def crawlCond (limit : Int) (s : CrawlState) : Bool :=
  !s.queue.isEmpty && decide ((s.iterations : Int) < limit)

/-- The while loop, driven by fuel. The loop body runs only while
crawlCond holds; crawlLoop_stops_by_cond below shows that with the fuel
recursive_download_and_parse supplies, the loop always exits because
crawlCond became false, never because the fuel ran out. -/
def crawlLoop (f : FetchExtract) (lang : String) (maxsize limit : Int) :
    Nat → CrawlState → CrawlState
  | 0, s => s
  | fuel + 1, s =>
      if crawlCond limit s then
        crawlLoop f lang maxsize limit fuel (crawlStep f lang maxsize s)
      else s

/-- src/main.py lines 109-139: the whole generator. Queue capacity is
iteration_limit + 10 (line 117), the queue starts holding the seed URL,
and the loop runs from a zero counter. -/
def recursive_download_and_parse (f : FetchExtract) (url lang : String)
    (iteration_limit : Int) : CrawlState :=
  crawlLoop f lang (iteration_limit + 10) iteration_limit
    iteration_limit.toNat
    { queue := [url], iterations := 0, yields := [], slept := 0 }

/-- Lowercase ASCII letter, the character class [a-z]. -/
def isLowerChar (c : Char) : Bool := 'a' ≤ c && c ≤ 'z'

/-- Match a literal string at the front of the character list, returning
the remainder on success, none on mismatch. -/
def stripLit : List Char → List Char → Option (List Char)
  | [], cs => some cs
  | _ :: _, [] => none
  | p :: ps, c :: cs => if c = p then stripLit ps cs else none

/-- The tail of the pattern after the captured group and the escaped
dot: the literal "wikipedia", then an unescaped regex dot (any character
except a newline), then the literal "org/". re.match only anchors at
the start, so anything may follow. -/
def matchSiteTail (cs : List Char) : Bool :=
  match stripLit "wikipedia".data cs with
  | none => false
  | some cs₂ =>
    match cs₂ with
    | [] => false
    | c :: cs₃ => c ≠ '\n' && (stripLit "org/".data cs₃).isSome

/-- src/main.py lines 142-143: parse_url, i.e.
re.match(https?://([a-z]+)[.]wikipedia.org/, url), expanded for this
concrete pattern. Returns the capture group ([a-z]+) on a match. The
scheme branch is deterministic (after "http" a literal "://" must
follow, so the optional "s" is forced by the input), and the greedy
[a-z]+ needs no backtracking because the following [.] can never match
a lowercase letter. -/
def parse_url (url : String) : Option String :=
  let cs := url.data
  let afterScheme :=
    match stripLit "https://".data cs with
    | some r => some r
    | none => stripLit "http://".data cs
  match afterScheme with
  | none => none
  | some r =>
    let sl := r.span isLowerChar
    if sl.1 = [] then none
    else
      match sl.2 with
      | '.' :: r₂ => if matchSiteTail r₂ then some (String.mk sl.1) else none
      | _ => none

/-- One step of building a Python dict from a pair sequence: inserting
(k, v) overwrites the value at k when k is already a key (keeping the
key's position) and appends the new entry otherwise. The entry list is
kept in Python's insertion order. -/
def dictInsert (m : List (String × String)) (kv : String × String) :
    List (String × String) :=
  if m.any (fun p => p.1 = kv.1) then
    m.map (fun p => if p.1 = kv.1 then (p.1, kv.2) else p)
  else m ++ [kv]

/-- dict(pairs) as called in src/main.py line 154: fold the yielded
pairs left to right, so a later pair with the same text overwrites the
earlier one. -/
def dictOfPairs (l : List (String × String)) : List (String × String) :=
  l.foldl dictInsert []

/-- Looking a key up in the entry list of the dict: the value of the
first (and, keys being unique, only) entry carrying the key. -/
def dictLookup : List (String × String) → String → Option String
  | [], _ => none
  | p :: rest, k => if p.1 = k then some p.2 else dictLookup rest k

/-- Spec-side characterization for claim C6: the target of the last
record in the sequence that carries the given text, if any. -/
def lastValue : List (String × String) → String → Option String
  | [], _ => none
  | p :: rest, k =>
    match lastValue rest k with
    | some v => some v
    | none => if p.1 = k then some p.2 else none

/-- JSON string escaping for the quote and backslash (the characters
that can need escaping in the URLs and anchor texts at hand; control
and non-ASCII characters are out of scope per the spec). -/
def jsonEscapeChar (c : Char) : String :=
  if c = '"' then "\\\"" else if c = '\\' then "\\\\" else String.mk [c]

/-- json.dump of the result dict (src/main.py lines 97-102, 162): a
single flat JSON object, one member per entry in insertion order, with
Python's default ", " and ": " separators. The empty dict serializes to
the two-character object \x7b\x7d. -/
def jsonOfDict (m : List (String × String)) : String :=
  "\x7b" ++
    String.intercalate ", "
      (m.map (fun p =>
        "\"" ++ String.join (p.1.data.map jsonEscapeChar) ++ "\": \"" ++
          String.join (p.2.data.map jsonEscapeChar) ++ "\"")) ++
  "\x7d"

/-- src/main.py lines 146-166, the pure core of main: validate the seed
URL with parse_url (a failure is reported and the process exits with a
non-zero status, modelled as .error), otherwise run the crawl with the
captured language segment and fold the yields into the result dict
(.ok means the JSON file is written and the exit status is zero). -/
def mainResult (f : FetchExtract) (url : String) (max_iterations : Int) :
    Except String (List (String × String)) :=
  match parse_url url with
  | none => .error "The program can only work with wikipedia urls: http(s)://<lang>.wikipedia.org"
  | some lang =>
      .ok (dictOfPairs (recursive_download_and_parse f url lang max_iterations).yields)

/-- A URL of the only shape the crawler ever fabricates: make_absolute
of an in-site raw reference, for the crawl's language. -/
def goodUrl (lang u : String) : Prop :=
  ∃ r, is_internal r = true ∧ u = make_absolute r lang

/-- The invariant of claim C10: every queued task other than the seed,
and the target of every yielded pair, is a resolved in-site URL. -/
def crawlInv (seed lang : String) (s : CrawlState) : Prop :=
  (∀ u ∈ s.queue, u = seed ∨ goodUrl lang u) ∧
    ∀ p ∈ s.yields, goodUrl lang p.2

/-! ### Sample oracles used by the concrete witnesses -/

/-- A network where every URL answers 200 with a fixed body. -/
def sampleNet : String → HttpResult := fun _ => HttpResult.response 200 "page"

/-- An extractor returning one in-site anchor and one external anchor,
the page of the scenario in spec section 8. -/
def sampleExtract : String → Except String (List (String × String)) :=
  fun _ => Except.ok [("B", "/wiki/B"), ("ext", "https://example.com/x")]

/-- Fetch-and-extract over the sample network. -/
def sampleFetch : FetchExtract := fetchExtract sampleNet sampleExtract

/-- A fetch that always fails the way a 404 answer does. -/
def failFetch : FetchExtract := fun _ => Except.error "Server returned 404"

/-! ### Supporting lemmas -/

lemma crawlStep_iterations_of_cons (f : FetchExtract) (lang : String)
    (cap : Int) (s : CrawlState) (h : s.queue ≠ []) :
    (crawlStep f lang cap s).iterations = s.iterations + 1 := by
  rcases hs : s.queue with _ | ⟨u, rest⟩
  · exact absurd hs h
  · cases hf : f u <;> simp [crawlStep, hs, hf]

lemma crawlCond_dest (limit : Int) (s : CrawlState)
    (h : crawlCond limit s = true) :
    s.queue ≠ [] ∧ (s.iterations : Int) < limit := by
  simp only [crawlCond, Bool.and_eq_true, Bool.not_eq_true',
    decide_eq_true_eq] at h
  exact ⟨fun hnil => by simp [hnil] at h, h.2⟩

lemma crawlLoop_iterations_le (f : FetchExtract) (lang : String)
    (cap limit : Int) :
    ∀ (fuel : Nat) (s : CrawlState), s.iterations ≤ limit.toNat →
      (crawlLoop f lang cap limit fuel s).iterations ≤ limit.toNat := by
  intro fuel
  induction fuel with
  | zero => intro s h; exact h
  | succ n ih =>
    intro s h
    by_cases hc : crawlCond limit s = true
    · rw [crawlLoop, if_pos hc]
      obtain ⟨hq, hlt⟩ := crawlCond_dest limit s hc
      apply ih
      rw [crawlStep_iterations_of_cons f lang cap s hq]
      omega
    · rw [crawlLoop, if_neg hc]; exact h

/-! ### Claims C5, C2, C8 -/

/-- Claim C5: download_html_page returns the body exactly when the
status is 200; a transport failure gives the fixed generic message that
never carries the transport diagnostics; any other status gives an
error naming the received status code. The function consumes a single
HTTP outcome, so no retry happens at this layer. -/
theorem fetcher_contract :
    (∀ (r : HttpResult) (b : String),
        download_html_page r = .ok b ↔ r = .response 200 b) ∧
    (∀ diagnostics : String,
        download_html_page (.transportError diagnostics) =
          .error "Unable to download the web page") ∧
    (∀ (code : Nat) (body : String), code ≠ 200 →
        download_html_page (.response code body) =
          .error ("Server returned " ++ toString code)) := by
  refine ⟨?_, fun _ => rfl, ?_⟩
  · intro r b
    cases r with
    | transportError d => simp [download_html_page]
    | response code body =>
      by_cases h : code = 200
      · subst h; simp [download_html_page]
      · simp [download_html_page, h]
  · intro code body h
    simp [download_html_page, h]

/-- Witness for C5 at status 404. -/
theorem fetcher_contract_witness :
    (404 : Nat) ≠ 200 ∧
      download_html_page (.response 404 "x") =
        .error ("Server returned " ++ toString (404 : Nat)) :=
  ⟨by decide, fetcher_contract.2.2 404 "x" (by decide)⟩

/-- Claim C2: when fetch-and-extract fails for the dequeued URL, that
iteration yields nothing, the queue simply moves on to the next task,
the counter still counts the attempt, no sleep happens, and the step is
a total function (the failure is never fatal). In particular a 404
answer makes fetchExtract fail with the status-carrying message. -/
theorem failed_iteration_isolated (f : FetchExtract) (lang : String)
    (cap : Int) (s : CrawlState) (u : String) (rest : List String)
    (e : String) (hq : s.queue = u :: rest) (hf : f u = .error e) :
    crawlStep f lang cap s =
      { queue := rest, iterations := s.iterations + 1,
        yields := s.yields, slept := s.slept } ∧
    (∀ (net : String → HttpResult)
        (extract : String → Except String (List (String × String)))
        (v body : String), net v = .response 404 body →
        fetchExtract net extract v = .error "Server returned 404") := by
  constructor
  · simp [crawlStep, hq, hf]
  · intro net extract v body hnet
    simp [fetchExtract, hnet, download_html_page]
    rfl

/-- Witness for C2: one failing iteration on a singleton queue. -/
theorem failed_iteration_isolated_witness :
    failFetch "u" = .error "Server returned 404" ∧
      crawlStep failFetch "en" 11
          { queue := ["u"], iterations := 0, yields := [], slept := 0 } =
        { queue := [], iterations := 1, yields := [], slept := 0 } :=
  ⟨rfl,
    (failed_iteration_isolated failFetch "en" 11
      { queue := ["u"], iterations := 0, yields := [], slept := 0 }
      "u" [] "Server returned 404" rfl rfl).1⟩

/-- Claim C8: the delay is slept exactly once in an iteration whose
fetch-and-extract succeeded (after the page's links were processed, cf.
crawlStep), and never in an iteration whose fetch-and-extract failed. -/
theorem delay_only_after_success (f : FetchExtract) (lang : String)
    (cap : Int) (s : CrawlState) (u : String) (rest : List String)
    (hq : s.queue = u :: rest) :
    (∀ links, f u = .ok links →
        (crawlStep f lang cap s).slept = s.slept + 1) ∧
    (∀ e, f u = .error e → (crawlStep f lang cap s).slept = s.slept) := by
  constructor <;> intro x hx <;> simp [crawlStep, hq, hx]

/-- Witness for C8: a successful and a failed iteration. -/
theorem delay_only_after_success_witness :
    ((crawlStep sampleFetch "en" 11
        { queue := ["u"], iterations := 0, yields := [], slept := 0 }).slept
      = 0 + 1) ∧
    ((crawlStep failFetch "en" 11
        { queue := ["u"], iterations := 0, yields := [], slept := 0 }).slept
      = 0) :=
  ⟨(delay_only_after_success sampleFetch "en" 11
      { queue := ["u"], iterations := 0, yields := [], slept := 0 }
      "u" [] rfl).1 [("B", "/wiki/B"), ("ext", "https://example.com/x")] rfl,
   (delay_only_after_success failFetch "en" 11
      { queue := ["u"], iterations := 0, yields := [], slept := 0 }
      "u" [] rfl).2 "Server returned 404" rfl⟩

/-! ### Claim C1 -/

/-- Claim C1: with a positive iteration limit the crawl performs at
most that many dequeue operations — iterations counts exactly the
dequeues (and each dequeue leads to exactly one fetch attempt), and the
final count never exceeds the limit, however much the queue grew. -/
theorem iteration_budget_respected (f : FetchExtract) (url lang : String)
    (limit : Int) (h : 0 < limit) :
    ((recursive_download_and_parse f url lang limit).iterations : Int)
      ≤ limit := by
  have hle := crawlLoop_iterations_le f lang (limit + 10) limit
    limit.toNat
    { queue := [url], iterations := 0, yields := [], slept := 0 }
    (Nat.zero_le _)
  have h2 : (recursive_download_and_parse f url lang limit).iterations
      ≤ limit.toNat := hle
  omega

/-- Witness for C1: three iterations allowed, sample page crawl. -/
theorem iteration_budget_respected_witness :
    (0 : Int) < 3 ∧
      ((recursive_download_and_parse sampleFetch
          "https://en.wikipedia.org/wiki/A" "en" 3).iterations : Int) ≤ 3 :=
  ⟨by decide,
    iteration_budget_respected sampleFetch
      "https://en.wikipedia.org/wiki/A" "en" 3 (by decide)⟩

/-! ### Claim C4 -/

/-- The for loop over the internal_links generator, in closed form: the
yielded pairs are exactly the anchors whose raw href passes is_internal,
resolved with make_absolute, and the queue is the bounded-enqueue fold
of the resolved targets over the starting queue. -/
lemma processLinks_spec (lang : String) (cap : Int) :
    ∀ (links : List (String × String)) (q : List String),
      processLinks lang cap links q =
        (((links.filter (fun p => is_internal p.2)).map
            (fun p => make_absolute p.2 lang)).foldl (enqueueBounded cap) q,
         (links.filter (fun p => is_internal p.2)).map
            (fun p => (p.1, make_absolute p.2 lang))) := by
  intro links
  induction links with
  | nil => intro q; rfl
  | cons hd rest ih =>
    intro q
    obtain ⟨t, href⟩ := hd
    cases hi : is_internal href
    · simp [processLinks, hi, ih]
    · simp [processLinks, hi, ih]

/-- Claim C4: in a successfully fetched iteration, an extracted pair
(text, rawRef) is yielded iff is_internal rawRef (i.e. rawRef begins
with the in-site path marker), the yielded and enqueued target is
make_absolute rawRef lang (the language host prepended), out-of-scope
pairs are dropped without error, and each in-scope target is appended
to the queue exactly when the queue is not full at that moment. -/
theorem inscope_links_yielded_and_enqueued (f : FetchExtract)
    (lang : String) (cap : Int) (s : CrawlState) (u : String)
    (rest : List String) (links : List (String × String))
    (hq : s.queue = u :: rest) (hf : f u = .ok links) :
    (crawlStep f lang cap s).yields =
        s.yields ++ (links.filter (fun p => is_internal p.2)).map
          (fun p => (p.1, make_absolute p.2 lang)) ∧
    (crawlStep f lang cap s).queue =
        ((links.filter (fun p => is_internal p.2)).map
          (fun p => make_absolute p.2 lang)).foldl (enqueueBounded cap) rest ∧
    (∀ r : String, is_internal r = r.startsWith "/wiki/") ∧
    (∀ (q : List String) (x : String), queueFull cap q.length = false →
        enqueueBounded cap q x = q ++ [x]) := by
  refine ⟨?_, ?_, fun _ => rfl, ?_⟩
  · simp [crawlStep, hq, hf, processLinks_spec]
  · simp [crawlStep, hq, hf, processLinks_spec]
  · intro q x hfull
    simp [enqueueBounded, hfull]

/-- Witness for C4: spec section 8 scenario page, one in-site and one
external anchor. -/
theorem inscope_links_yielded_and_enqueued_witness :
    (crawlStep sampleFetch "en" 11
        { queue := ["https://en.wikipedia.org/wiki/A"], iterations := 0,
          yields := [], slept := 0 }).yields =
      [] ++ ([("B", "/wiki/B"), ("ext", "https://example.com/x")].filter
          (fun p => is_internal p.2)).map
        (fun p => (p.1, make_absolute p.2 "en")) :=
  (inscope_links_yielded_and_enqueued sampleFetch "en" 11
    { queue := ["https://en.wikipedia.org/wiki/A"], iterations := 0,
      yields := [], slept := 0 }
    "https://en.wikipedia.org/wiki/A" []
    [("B", "/wiki/B"), ("ext", "https://example.com/x")] rfl rfl).1

/-! ### Claim C3 -/

lemma enqueueBounded_length_le (cap : Int) (hcap : 0 < cap)
    (q : List String) (x : String) (h : (q.length : Int) ≤ cap) :
    ((enqueueBounded cap q x).length : Int) ≤ cap := by
  by_cases hfull : queueFull cap q.length = true
  · simpa [enqueueBounded, hfull] using h
  · have hlt : (q.length : Int) < cap := by
      simp only [queueFull, Bool.and_eq_true, decide_eq_true_eq,
        not_and] at hfull
      have := hfull hcap
      omega
    rw [enqueueBounded, if_neg hfull]
    simp only [List.length_append, List.length_cons, List.length_nil]
    omega

lemma foldl_enqueueBounded_length (cap : Int) (hcap : 0 < cap) :
    ∀ (l q : List String), (q.length : Int) ≤ cap →
      ((l.foldl (enqueueBounded cap) q).length : Int) ≤ cap := by
  intro l
  induction l with
  | nil => intro q h; exact h
  | cons x rest ih =>
    intro q h
    exact ih _ (enqueueBounded_length_le cap hcap q x h)

lemma crawlStep_queue_length (f : FetchExtract) (lang : String)
    (limit : Int) (hl : 0 < limit) (s : CrawlState)
    (h : (s.queue.length : Int) ≤ limit + 10) :
    (((crawlStep f lang (limit + 10) s).queue).length : Int)
      ≤ limit + 10 := by
  rcases hs : s.queue with _ | ⟨u, rest⟩
  · simpa [crawlStep, hs] using h
  · rw [hs] at h
    simp only [List.length_cons] at h
    cases hf : f u with
    | error e =>
      simp only [crawlStep, hs, hf]
      omega
    | ok links =>
      simp only [crawlStep, hs, hf, processLinks_spec]
      exact foldl_enqueueBounded_length (limit + 10) (by omega) _ rest
        (by omega)

lemma crawlLoop_queue_length (f : FetchExtract) (lang : String)
    (limit : Int) (hl : 0 < limit) :
    ∀ (fuel : Nat) (s : CrawlState),
      (s.queue.length : Int) ≤ limit + 10 →
      (((crawlLoop f lang (limit + 10) limit fuel s).queue).length : Int)
        ≤ limit + 10 := by
  intro fuel
  induction fuel with
  | zero => intro s h; exact h
  | succ n ih =>
    intro s h
    by_cases hc : crawlCond limit s = true
    · rw [crawlLoop, if_pos hc]
      exact ih _ (crawlStep_queue_length f lang limit hl s h)
    · rw [crawlLoop, if_neg hc]; exact h

/-- Claim C3: with a positive limit the queue capacity is limit + 10;
an insertion into a full queue is silently dropped (total function, the
queue unchanged); every crawl step preserves the capacity bound; and in
the crawl started from the single seed the queue never exceeds it. -/
theorem queue_capacity_invariant (f : FetchExtract) (url lang : String)
    (limit : Int) (h : 0 < limit) :
    (∀ (cap : Int) (q : List String) (x : String),
        queueFull cap q.length = true → enqueueBounded cap q x = q) ∧
    (∀ s : CrawlState, (s.queue.length : Int) ≤ limit + 10 →
        (((crawlStep f lang (limit + 10) s).queue).length : Int)
          ≤ limit + 10) ∧
    (((recursive_download_and_parse f url lang limit).queue).length : Int)
      ≤ limit + 10 := by
  refine ⟨?_, fun s hs => crawlStep_queue_length f lang limit h s hs, ?_⟩
  · intro cap q x hfull
    simp [enqueueBounded, hfull]
  · exact crawlLoop_queue_length f lang limit h limit.toNat
      { queue := [url], iterations := 0, yields := [], slept := 0 }
      (by simp; omega)

/-- Witness for C3: the sample crawl with limit 1 keeps the queue
within 11 tasks. -/
theorem queue_capacity_invariant_witness :
    (0 : Int) < 1 ∧
      (((recursive_download_and_parse sampleFetch
          "https://en.wikipedia.org/wiki/A" "en" 1).queue).length : Int)
        ≤ 1 + 10 :=
  ⟨by decide,
    (queue_capacity_invariant sampleFetch
      "https://en.wikipedia.org/wiki/A" "en" 1 (by decide)).2.2⟩

/-! ### Claim C10 -/

lemma mem_enqueueBounded (cap : Int) (q : List String) (x y : String)
    (h : y ∈ enqueueBounded cap q x) : y ∈ q ∨ y = x := by
  by_cases hfull : queueFull cap q.length = true
  · rw [enqueueBounded, if_pos hfull] at h
    exact Or.inl h
  · rw [enqueueBounded, if_neg hfull] at h
    simpa using h

lemma mem_foldl_enqueueBounded (cap : Int) :
    ∀ (l q : List String) (y : String),
      y ∈ l.foldl (enqueueBounded cap) q → y ∈ q ∨ y ∈ l := by
  intro l
  induction l with
  | nil => intro q y h; exact Or.inl h
  | cons x rest ih =>
    intro q y h
    rcases ih _ y h with h1 | h1
    · rcases mem_enqueueBounded cap q x y h1 with h2 | h2
      · exact Or.inl h2
      · exact Or.inr (by simp [h2])
    · exact Or.inr (List.mem_cons_of_mem x h1)

lemma goodUrl_of_mem_resolved (lang : String)
    (links : List (String × String)) (y : String)
    (h : y ∈ (links.filter (fun p => is_internal p.2)).map
        (fun p => make_absolute p.2 lang)) : goodUrl lang y := by
  rcases List.mem_map.mp h with ⟨p, hp, hy⟩
  rcases List.mem_filter.mp hp with ⟨-, hint⟩
  exact ⟨p.2, hint, hy.symm⟩

lemma crawlStep_inv (seed lang : String) (f : FetchExtract) (cap : Int)
    (s : CrawlState) (h : crawlInv seed lang s) :
    crawlInv seed lang (crawlStep f lang cap s) := by
  obtain ⟨hqinv, hyinv⟩ := h
  rcases hs : s.queue with _ | ⟨u, rest⟩
  · have hstep : crawlStep f lang cap s = s := by simp [crawlStep, hs]
    rw [hstep]
    exact ⟨hqinv, hyinv⟩
  · have hrest : ∀ v ∈ rest, v = seed ∨ goodUrl lang v :=
      fun v hv => hqinv v (by rw [hs]; exact List.mem_cons_of_mem u hv)
    cases hf : f u with
    | error e =>
      simp only [crawlStep, hs, hf]
      exact ⟨hrest, hyinv⟩
    | ok links =>
      simp only [crawlStep, hs, hf, processLinks_spec]
      constructor
      · intro v hv
        rcases mem_foldl_enqueueBounded cap _ rest v hv with h1 | h1
        · exact hrest v h1
        · exact Or.inr (goodUrl_of_mem_resolved lang links v h1)
      · intro p hp
        rcases List.mem_append.mp hp with h1 | h1
        · exact hyinv p h1
        · rcases List.mem_map.mp h1 with ⟨a, ha, hpa⟩
          rcases List.mem_filter.mp ha with ⟨-, hint⟩
          exact ⟨a.2, hint, by rw [← hpa]⟩

lemma crawlLoop_inv (seed lang : String) (f : FetchExtract)
    (cap limit : Int) :
    ∀ (fuel : Nat) (s : CrawlState), crawlInv seed lang s →
      crawlInv seed lang (crawlLoop f lang cap limit fuel s) := by
  intro fuel
  induction fuel with
  | zero => intro s h; exact h
  | succ n ih =>
    intro s h
    by_cases hc : crawlCond limit s = true
    · rw [crawlLoop, if_pos hc]
      exact ih _ (crawlStep_inv seed lang f cap s h)
    · rw [crawlLoop, if_neg hc]; exact h

/-- Claim C10: the invariant holds at the start, is preserved by every
iteration, and holds of the whole crawl: every task in the queue other
than the seed, and the target of every yielded pair, is the language
host prepended to a raw reference that begins with the in-site path
marker; nothing relative and nothing off-host is ever enqueued or
yielded. -/
theorem resolved_urls_invariant (seed lang : String) :
    crawlInv seed lang
      { queue := [seed], iterations := 0, yields := [], slept := 0 } ∧
    (∀ (f : FetchExtract) (cap : Int) (s : CrawlState),
        crawlInv seed lang s →
          crawlInv seed lang (crawlStep f lang cap s)) ∧
    (∀ (f : FetchExtract) (limit : Int),
        crawlInv seed lang
          (recursive_download_and_parse f seed lang limit)) := by
  have hinit : crawlInv seed lang
      { queue := [seed], iterations := 0, yields := [], slept := 0 } := by
    constructor
    · intro u hu
      simp only [List.mem_singleton] at hu
      exact Or.inl hu
    · intro p hp
      cases hp
  refine ⟨hinit, fun f cap s h => crawlStep_inv seed lang f cap s h, ?_⟩
  intro f limit
  exact crawlLoop_inv seed lang f (limit + 10) limit limit.toNat _ hinit

/-- Witness for C10: the invariant survives one failing step from the
seeded state. -/
theorem resolved_urls_invariant_witness :
    crawlInv "https://en.wikipedia.org/wiki/A" "en"
      { queue := ["https://en.wikipedia.org/wiki/A"], iterations := 0,
        yields := [], slept := 0 } ∧
    crawlInv "https://en.wikipedia.org/wiki/A" "en"
      (crawlStep failFetch "en" 11
        { queue := ["https://en.wikipedia.org/wiki/A"], iterations := 0,
          yields := [], slept := 0 }) :=
  ⟨(resolved_urls_invariant "https://en.wikipedia.org/wiki/A" "en").1,
    (resolved_urls_invariant "https://en.wikipedia.org/wiki/A" "en").2.1
      failFetch 11 _
      (resolved_urls_invariant "https://en.wikipedia.org/wiki/A" "en").1⟩

/-! ### Claim C6 -/

lemma dictLookup_map_update_ne (k v k' : String) (h : k' ≠ k) :
    ∀ m : List (String × String),
      dictLookup (m.map (fun p => if p.1 = k then (p.1, v) else p)) k' =
        dictLookup m k' := by
  intro m
  induction m with
  | nil => rfl
  | cons p rest ih =>
    by_cases hp : p.1 = k
    · have hp' : p.1 ≠ k' := by rw [hp]; exact fun he => h he.symm
      simp [dictLookup, hp, hp', ih, Ne.symm h]
    · by_cases hk' : p.1 = k'
      · simp [dictLookup, hp, hk', h, ih]
      · simp [dictLookup, hp, hk', ih]

lemma dictLookup_map_update_eq (k v : String) :
    ∀ m : List (String × String),
      m.any (fun p => p.1 = k) = true →
      dictLookup (m.map (fun p => if p.1 = k then (p.1, v) else p)) k =
        some v := by
  intro m
  induction m with
  | nil => intro h; cases h
  | cons p rest ih =>
    intro h
    by_cases hp : p.1 = k
    · simp [dictLookup, hp]
    · have hrest : rest.any (fun p => p.1 = k) = true := by
        simpa [List.any_cons, hp] using h
      simp [dictLookup, hp, ih hrest]

lemma dictLookup_append (k : String) :
    ∀ m₁ m₂ : List (String × String),
      dictLookup (m₁ ++ m₂) k =
        (dictLookup m₁ k).or (dictLookup m₂ k) := by
  intro m₁ m₂
  induction m₁ with
  | nil => rfl
  | cons p rest ih =>
    by_cases hp : p.1 = k
    · simp [dictLookup, hp]
    · simp [dictLookup, hp, ih]

lemma dictLookup_eq_none_of_not_any (k : String) :
    ∀ m : List (String × String),
      m.any (fun p => p.1 = k) = false → dictLookup m k = none := by
  intro m
  induction m with
  | nil => intro _; rfl
  | cons p rest ih =>
    intro h
    simp only [List.any_cons, Bool.or_eq_false_iff, decide_eq_false_iff_not]
      at h
    simp [dictLookup, h.1, ih h.2]

lemma dictLookup_dictInsert (m : List (String × String)) (k v k' : String) :
    dictLookup (dictInsert m (k, v)) k' =
      if k' = k then some v else dictLookup m k' := by
  by_cases hany : m.any (fun p => p.1 = k) = true
  · rw [dictInsert, if_pos hany]
    by_cases hk : k' = k
    · subst hk
      rw [dictLookup_map_update_eq k' v m hany, if_pos rfl]
    · rw [dictLookup_map_update_ne k v k' hk m, if_neg hk]
  · rw [dictInsert, if_neg hany, dictLookup_append]
    by_cases hk : k' = k
    · subst hk
      rw [dictLookup_eq_none_of_not_any k' m
        (Bool.not_eq_true _ ▸ hany)]
      simp [dictLookup]
    · have hk' : k ≠ k' := fun he => hk he.symm
      simp [dictLookup, hk, hk']

lemma lastValue_append_single (k v k' : String) :
    ∀ l : List (String × String),
      lastValue (l ++ [(k, v)]) k' =
        if k' = k then some v else lastValue l k' := by
  intro l
  induction l with
  | nil =>
    by_cases hk : k' = k
    · simp [lastValue, hk]
    · have hk' : k ≠ k' := fun he => hk he.symm
      simp [lastValue, hk, hk']
  | cons p rest ih =>
    simp only [List.cons_append, lastValue, List.append_eq, ih]
    by_cases hk : k' = k
    · simp [hk]
    · simp [hk]

lemma dictOfPairs_lookup_eq_lastValue (l : List (String × String))
    (k : String) : dictLookup (dictOfPairs l) k = lastValue l k := by
  induction l using List.reverseRecOn with
  | nil => rfl
  | append_singleton l p ih =>
    obtain ⟨k₀, v₀⟩ := p
    rw [dictOfPairs, List.foldl_append, List.foldl_cons, List.foldl_nil]
    rw [show List.foldl dictInsert [] l = dictOfPairs l from rfl]
    rw [dictLookup_dictInsert, lastValue_append_single, ih]

lemma keys_dictInsert (m : List (String × String)) (kv : String × String) :
    (dictInsert m kv).map Prod.fst =
      if m.any (fun p => p.1 = kv.1) then m.map Prod.fst
      else m.map Prod.fst ++ [kv.1] := by
  unfold dictInsert
  split
  · rw [List.map_map]
    apply List.map_congr_left
    intro p _
    simp only [Function.comp]
    split <;> rfl
  · simp

lemma nodup_keys_dictInsert (m : List (String × String))
    (kv : String × String) (h : (m.map Prod.fst).Nodup) :
    ((dictInsert m kv).map Prod.fst).Nodup := by
  rw [keys_dictInsert]
  split
  · exact h
  · next hany =>
    have hmem : kv.1 ∉ m.map Prod.fst := by
      intro hmem
      rcases List.mem_map.mp hmem with ⟨p, hp, hpk⟩
      exact hany (List.any_eq_true.2 ⟨p, hp, by simp [hpk]⟩)
    simp [List.nodup_append, h, hmem]

lemma nodup_keys_foldl :
    ∀ (l : List (String × String)) (m : List (String × String)),
      (m.map Prod.fst).Nodup →
      ((l.foldl dictInsert m).map Prod.fst).Nodup := by
  intro l
  induction l with
  | nil => intro m h; exact h
  | cons p rest ih =>
    intro m h
    exact ih _ (nodup_keys_dictInsert m p h)

lemma mem_keys_dictInsert (m : List (String × String))
    (kv : String × String) (y : String) :
    y ∈ (dictInsert m kv).map Prod.fst ↔
      y ∈ m.map Prod.fst ∨ y = kv.1 := by
  rw [keys_dictInsert]
  split
  · next hany =>
    constructor
    · exact Or.inl
    · rintro (h | h)
      · exact h
      · subst h
        rcases List.any_eq_true.1 hany with ⟨p, hp, hpk⟩
        simp only [decide_eq_true_eq] at hpk
        exact List.mem_map.2 ⟨p, hp, hpk⟩
  · simp [List.mem_append]

lemma mem_keys_foldl :
    ∀ (l : List (String × String)) (m : List (String × String))
      (y : String),
      y ∈ ((l.foldl dictInsert m).map Prod.fst) ↔
        y ∈ m.map Prod.fst ∨ y ∈ l.map Prod.fst := by
  intro l
  induction l with
  | nil => intro m y; simp
  | cons p rest ih =>
    intro m y
    rw [List.foldl_cons, ih]
    rw [mem_keys_dictInsert]
    simp only [List.map_cons, List.mem_cons]
    tauto

/-- Claim C6: the result dict maps each anchor text to the target of
the last yielded record with that text (a later record with the same
text overwrites the earlier one — including the empty text, which is
just another key), and it contains exactly one entry per distinct
yielded text: its keys are duplicate-free and are exactly the texts
occurring in the yielded sequence. -/
theorem result_map_last_write_wins (records : List (String × String))
    (k : String) :
    dictLookup (dictOfPairs records) k = lastValue records k ∧
    ((dictOfPairs records).map Prod.fst).Nodup ∧
    (k ∈ (dictOfPairs records).map Prod.fst ↔
      k ∈ records.map Prod.fst) := by
  refine ⟨dictOfPairs_lookup_eq_lastValue records k, ?_, ?_⟩
  · exact nodup_keys_foldl records [] (by simp)
  · rw [dictOfPairs, mem_keys_foldl]
    simp

/-! ### Claim C7 -/

/-- Claim C7 (refuted by the code, which contradicts its own error
message restricting seeds to wikipedia.org hosts): the pattern in
parse_url leaves the dot of "wikipedia.org" unescaped, so a seed whose
host is "en.wikipediaxorg" — not of the documented form with a literal
dot — is accepted with capture "en", and main proceeds with a
successful crawl (exit status zero) instead of reporting a
configuration error. -/
theorem parse_url_unescaped_dot_accepts_bad_seed :
    parse_url "https://en.wikipediaxorg/" = some "en" ∧
    mainResult failFetch "https://en.wikipediaxorg/" 1 = .ok [] ∧
    parse_url "https://en.wikipedia.org/wiki/A" = some "en" := by
  refine ⟨by decide, ?_, by decide⟩
  have hurl : parse_url "https://en.wikipediaxorg/" = some "en" := by decide
  rw [mainResult, hurl]
  rfl

/-! ### Claim C9 -/

/-- Claim C9: a non-positive iteration limit is not rejected — the
while condition fails at once, so the crawl ends in its initial state
(zero iterations, the seed never fetched, nothing yielded, no sleep),
main succeeds with the empty result map (exit status zero), and the
empty map serializes to the empty JSON object. -/
theorem nonpositive_limit_yields_nothing (f : FetchExtract)
    (url lang : String) (limit : Int) (hl : limit ≤ 0)
    (hurl : parse_url url = some lang) :
    recursive_download_and_parse f url lang limit =
      { queue := [url], iterations := 0, yields := [], slept := 0 } ∧
    mainResult f url limit = .ok [] ∧
    jsonOfDict [] = "\x7b\x7d" := by
  have hfuel : limit.toNat = 0 := by omega
  have hcrawl : recursive_download_and_parse f url lang limit =
      { queue := [url], iterations := 0, yields := [], slept := 0 } := by
    rw [recursive_download_and_parse, hfuel]
    rfl
  refine ⟨hcrawl, ?_, rfl⟩
  simp [mainResult, hurl, hcrawl, dictOfPairs]

/-- Witness for C9: limit zero on a valid wikipedia seed. -/
theorem nonpositive_limit_yields_nothing_witness :
    (0 : Int) ≤ 0 ∧
      parse_url "https://en.wikipedia.org/" = some "en" ∧
      mainResult failFetch "https://en.wikipedia.org/" 0 = .ok [] :=
  ⟨le_refl 0, by decide,
    (nonpositive_limit_yields_nothing failFetch "https://en.wikipedia.org/"
      "en" 0 (le_refl 0) (by decide)).2.1⟩

end HseWs10
